import Mathlib

/-
Verification development for the path-security validation layer of
vitest-mcp (src/utils/path-security.ts).  The repository snapshot ships
only the module's test suite (src/utils/__tests__/path-security.test.ts),
so the module itself is reconstructed here from the design document's
description of each function (purpose, check order, limits, messages) and
cross-checked against the behaviours the test suite demands.  Strings are
embedded as lists of characters; the typed security failures of the
module become an explicit error value carried in an Except result.
-/

set_option maxRecDepth 2000

namespace PathSec

/-- Modelled from the spec: the error taxonomy of the missing module
src/utils/path-security.ts, one kind per failure class (InvalidInput,
TooLong, TooDeep, DangerousPattern, SystemDirectoryForbidden,
ExtensionNotAllowed, BoundaryEscape, TooManyPatterns, InvalidCharacters,
PathTraversalInPattern). -/
inductive ErrorKind where
  | InvalidInput
  | TooLong
  | TooDeep
  | DangerousPattern
  | SystemDirectoryForbidden
  | ExtensionNotAllowed
  | BoundaryEscape
  | TooManyPatterns
  | InvalidCharacters
  | PathTraversalInPattern
  deriving DecidableEq, Repr

/-- Modelled from the spec: a typed security failure carrying its kind and
its stable human-readable message (the message substrings quoted in the
design document are part of the observable contract). -/
structure SecurityError where
  kind : ErrorKind
  msg : String
  deriving DecidableEq, Repr

instance {ε α : Type} [DecidableEq ε] [DecidableEq α] : DecidableEq (Except ε α) := fun x y =>
  match x, y with
  | .ok a, .ok b =>
    if h : a = b then .isTrue (by rw [h])
    else .isFalse (fun hc => h (Except.ok.inj hc))
  | .ok _, .error _ => .isFalse (fun hc => Except.noConfusion hc)
  | .error _, .ok _ => .isFalse (fun hc => Except.noConfusion hc)
  | .error a, .error b =>
    if h : a = b then .isTrue (by rw [h])
    else .isFalse (fun hc => h (Except.error.inj hc))

/-- Index of the first occurrence of the character sequence pat inside a
list, scanning left to right; none when pat does not occur. -/
def findIdxOfSeq (pat : List Char) : List Char → Option Nat
  | [] => if pat.isEmpty then some 0 else none
  | c :: rest =>
    if pat.isPrefixOf (c :: rest) then some 0
    else (findIdxOfSeq pat rest).map (fun n => n + 1)

/-- Whether the character sequence pat occurs anywhere in l. -/
def containsSeq (pat l : List Char) : Bool := (findIdxOfSeq pat l).isSome

/-- Whether the string pat occurs anywhere in the string s. -/
def hasSubstr (pat s : String) : Bool := containsSeq pat.toList s.toList

/-- Control characters: ASCII 0 to 31 (NUL included) and DEL. -/
def isCtrl (c : Char) : Bool := c.toNat < 32 || c.toNat == 127

/-- Modelled from the spec: the dangerous-sequence test of the missing
validatePathSecurity — parent-directory traversal (two consecutive dots in
any position), a NUL byte, or any other control character. -/
def hasDangerous (l : List Char) : Bool :=
  containsSeq ['.', '.'] l || l.any isCtrl

/-- Split a character list on the forward slash separator. -/
def splitSl : List Char → List (List Char)
  | [] => [[]]
  | c :: rest =>
    if c = '/' then [] :: splitSl rest
    else
      match splitSl rest with
      | [] => [[c]]
      | s :: ss => (c :: s) :: ss

/-- Normalization worker: drop empty and single-dot segments, pop a
segment on a residual parent-directory segment, keep the rest (accumulator
is in reverse order). -/
def resolveSegs : List (List Char) → List (List Char) → List (List Char)
  | acc, [] => acc.reverse
  | acc, x :: xs =>
    if x = [] ∨ x = ['.'] then resolveSegs acc xs
    else if x = ['.', '.'] then resolveSegs acc.tail xs
    else resolveSegs (x :: acc) xs

/-- Join segments with single slashes. -/
def joinSegs : List (List Char) → List Char
  | [] => []
  | [s] => s
  | s :: ss => s ++ '/' :: joinSegs ss

/-- Modelled from the spec: the path normalization used by the missing
resolver — collapse dot and empty segments, resolve residual relative
structure, keep a leading slash for absolute inputs. -/
def normalizePath (l : List Char) : List Char :=
  if l.head? = some '/' then '/' :: joinSegs (resolveSegs [] (splitSl l))
  else joinSegs (resolveSegs [] (splitSl l))

/-- Modelled from the spec: path depth after normalization, counted in
segments. -/
def pathDepth (l : List Char) : Nat := (resolveSegs [] (splitSl l)).length

/-- Lowercase a path and unify separators for the case-insensitive,
separator-independent system-directory match. -/
def lowSlash (l : List Char) : List Char :=
  l.map (fun c => if c == '\\' then '/' else c.toLower)

/-- Modelled from the spec: the denylist of absolute system directories in
POSIX and Windows styles, kept in lowercase forward-slash form. -/
def sysDirs : List (List Char) :=
  ["/etc".toList, "/usr".toList, "/bin".toList, "/sbin".toList,
   "/root".toList, "/sys".toList, "/proc".toList, "/dev".toList,
   "/boot".toList, "c:/windows".toList, "c:/program files".toList,
   "/system32".toList]

/-- Modelled from the spec: whether a path lies inside a denylisted system
directory — the normalized lowercase form either equals the directory or
starts with the directory followed by a separator. -/
def inSystemDir (l : List Char) : Bool :=
  sysDirs.any (fun d => lowSlash l == d || (d ++ ['/']).isPrefixOf (lowSlash l))

/-- Hard ceiling on path length. -/
def MAX_PATH_LEN : Nat := 4096

/-- Maximum path depth in segments after normalization. -/
def MAX_PATH_DEPTH : Nat := 20

/-- Modelled from the spec: validatePathSecurity of the missing module.
Checks run in order with first match winning: empty input, length over
4096, dangerous sequence, depth over 20 segments, denylisted system
directory. -/
def validatePathSecurity (l : List Char) : Except SecurityError Unit :=
  if l = [] then .error ⟨.InvalidInput, "path must be a non-empty string"⟩
  else if MAX_PATH_LEN < l.length then .error ⟨.TooLong, "Path too long"⟩
  else if hasDangerous l then .error ⟨.DangerousPattern, "dangerous path pattern"⟩
  else if MAX_PATH_DEPTH < pathDepth l then .error ⟨.TooDeep, "path depth exceeds maximum levels"⟩
  else if inSystemDir l then .error ⟨.SystemDirectoryForbidden, "system directory forbidden"⟩
  else .ok ()

/-- Modelled from the spec: joining the candidate onto the root before
normalization — an absolute candidate stands alone, a relative one is
appended under the root. -/
def joinPath (root cand : List Char) : List Char :=
  if cand.head? = some '/' then cand else root ++ '/' :: cand

/-- Modelled from the spec: the authoritative boundary check — the
normalized path must equal the root or begin with the root plus a
separator, anything else is a boundary escape. -/
def boundaryCheckOf (root norm : List Char) : Except SecurityError (List Char) :=
  if norm = root then .ok norm
  else if (root ++ ['/']).isPrefixOf norm then .ok norm
  else .error ⟨.BoundaryEscape, "resolved path escapes the project boundary"⟩

/-- Modelled from the spec: securePathResolve of the missing module —
validate the candidate first, then join it onto the root, normalize, and
apply the boundary check. -/
def securePathResolve (root cand : List Char) : Except SecurityError (List Char) :=
  match validatePathSecurity cand with
  | .error e => .error e
  | .ok _ => boundaryCheckOf root (normalizePath (joinPath root cand))

/-- Modelled from the spec: the advisory-prefix whitelist of the missing
createSecureTempPath — alphanumeric, hyphen and underscore survive, every
other character is stripped. -/
def pfxKeep (c : Char) : Bool := c.isAlphanum || c == '-' || c == '_'

/-- Lowercase hexadecimal digit for a value below sixteen. -/
def hexDigitChar (n : Nat) : Char :=
  if n < 10 then Char.ofNat (48 + n) else Char.ofNat (87 + n)

/-- Hex-encode a byte list, two lowercase digits per byte. -/
def hexEncode : List (Fin 256) → List Char
  | [] => []
  | b :: bs => hexDigitChar (b.val / 16) :: hexDigitChar (b.val % 16) :: hexEncode bs

/-- Lowercase hexadecimal character test. -/
def isLowerHexDigit (c : Char) : Bool := c.isDigit || ('a' ≤ c && c ≤ 'f')

/-- Modelled from the spec: the generated temp file name — sanitized
prefix, a hyphen, the hex-encoded random token, and the fixed tmp
suffix. -/
def tempFileName (pfx : List Char) (bytes : List (Fin 256)) : List Char :=
  pfx.filter pfxKeep ++ '-' :: (hexEncode bytes ++ ".tmp".toList)

/-- Modelled from the spec: createSecureTempPath of the missing module.
The cryptographically random draw is passed explicitly as a byte list (the
caller draws 32 bytes).  Only an invalid root makes the call fail; the
prefix is always sanitized, never rejected. -/
def createSecureTempPath (root pfx : List Char) (bytes : List (Fin 256)) :
    Except SecurityError (List Char) :=
  match validatePathSecurity root with
  | .error e => .error e
  | .ok _ => .ok (root ++ '/' :: tempFileName pfx bytes)

/-- Ceiling on sanitized content length (one mebibyte). -/
def MAX_CONTENT_LEN : Nat := 1048576

/-- Opening marker of a script-tag block, lowercase form. -/
def scriptOpen : List Char := "<script".toList

/-- Closing marker of a script-tag block, lowercase form. -/
def scriptClose : List Char := "</script>".toList

/-- Modelled from the spec: locate the first script-tag block
(case-insensitive opening marker through the next closing marker) and
return the text before and after it; none when no complete block
exists. -/
def splitFirstScript (l : List Char) : Option (List Char × List Char) :=
  match findIdxOfSeq scriptOpen (l.map Char.toLower) with
  | none => none
  | some i =>
    match findIdxOfSeq scriptClose ((l.map Char.toLower).drop i) with
    | none => none
    | some k => some (l.take i, l.drop (i + k + scriptClose.length))

/-- Remove script-tag blocks left to right, with fuel bounding the number
of removal rounds. -/
def removeScriptsFuel : Nat → List Char → List Char
  | 0, l => l
  | Nat.succ f, l =>
    match splitFirstScript l with
    | none => l
    | some (a, b) => removeScriptsFuel f (a ++ b)

/-- Modelled from the spec: removal of script-tag blocks from content. -/
def removeScriptBlocks (l : List Char) : List Char := removeScriptsFuel l.length l

/-- Single left-to-right pass removing every occurrence of a sequence,
case-insensitive; the text before a removed occurrence is not rescanned
against the text after it. -/
def removeSeqAllFuel (pat : List Char) : Nat → List Char → List Char
  | 0, l => l
  | Nat.succ f, l =>
    match findIdxOfSeq pat (l.map Char.toLower) with
    | none => l
    | some i => l.take i ++ removeSeqAllFuel pat f (l.drop (i + pat.length))

/-- Remove every occurrence of a sequence from a list. -/
def removeSeqAll (pat l : List Char) : List Char := removeSeqAllFuel pat l.length l

/-- Modelled from the spec: the dangerous URI scheme tokens stripped from
content. -/
def dangerousSchemes : List (List Char) :=
  ["javascript:".toList, "data:".toList, "vbscript:".toList]

/-- Modelled from the spec: strip each dangerous scheme token, preserving
the surrounding text. -/
def removeSchemes (l : List Char) : List Char :=
  dangerousSchemes.foldl (fun acc p => removeSeqAll p acc) l

/-- Characters the content sanitizer keeps. -/
def keepChar (c : Char) : Bool := !isCtrl c

/-- Modelled from the spec: the string pipeline of sanitizeFileContent —
remove script-tag blocks, strip dangerous scheme tokens, drop control
characters, and truncate last. -/
def sanitizeString (l : List Char) : List Char :=
  ((removeSchemes (removeScriptBlocks l)).filter keepChar).take MAX_CONTENT_LEN

/-- Modelled from the spec: the value space of the sanitizer input — a
string, or the non-string null and undefined values the function must
tolerate. -/
inductive JSValue where
  | str (s : List Char)
  | jsNull
  | jsUndefined
  deriving DecidableEq

/-- Modelled from the spec: sanitizeFileContent of the missing module, a
total function returning the empty string on non-string input. -/
def sanitizeFileContent : JSValue → List Char
  | .str s => sanitizeString s
  | .jsNull => []
  | .jsUndefined => []

/-- Cap on command-argument length. -/
def MAX_ARG_LEN : Nat := 256

/-- Shell metacharacters rejected in command arguments. -/
def argBadChar (c : Char) : Bool :=
  c == ';' || c == '|' || c == '&' || c == Char.ofNat 96 || c == '>' || c == '<'

/-- Modelled from the spec: the dangerous-construct denylist of the
missing validateCommandArgument — shell metacharacters, command
substitution, variable expansion, redirection, and parent-directory
traversal. -/
def argDangerous (l : List Char) : Bool :=
  l.any argBadChar || containsSeq ['$', '('] l ||
    containsSeq ['$', Char.ofNat 123] l || containsSeq ['.', '.'] l

/-- Modelled from the spec: validateCommandArgument of the missing module,
naming the failing parameter in each message. -/
def validateCommandArgument (arg : List Char) (name : String) : Except SecurityError Unit :=
  if arg = [] then .error ⟨.InvalidInput, name ++ " must be a non-empty string"⟩
  else if MAX_ARG_LEN < arg.length then .error ⟨.TooLong, name ++ " is too long"⟩
  else if argDangerous arg then .error ⟨.DangerousPattern, name ++ " contains dangerous characters"⟩
  else .ok ()

/-- Cap on the number of glob patterns. -/
def MAX_PATTERNS : Nat := 50

/-- Cap on a single glob pattern's length. -/
def MAX_GLOB_LEN : Nat := 256

/-- Modelled from the spec: the character allowlist for glob patterns —
alphanumeric, hyphen, slash, dot, star (plus underscore, which the test
suite's accepted patterns require); backslash is deliberately outside the
allowlist. -/
def globCharOK (c : Char) : Bool :=
  c.isAlphanum || c == '-' || c == '/' || c == '.' || c == '*' || c == '_'

/-- Modelled from the spec: validation of one glob pattern — emptiness,
length, character allowlist, then forward-slash traversal, first match
winning. -/
def validateGlobOne (p : List Char) : Except SecurityError Unit :=
  if p = [] then .error ⟨.InvalidInput, "pattern must be a non-empty string"⟩
  else if MAX_GLOB_LEN < p.length then .error ⟨.TooLong, "Pattern too long"⟩
  else if !p.all globCharOK then .error ⟨.InvalidCharacters, "Invalid glob pattern"⟩
  else if containsSeq ['.', '.', '/'] p then .error ⟨.PathTraversalInPattern, "Path traversal not allowed"⟩
  else .ok ()

/-- Validate patterns in order, stopping at the first failure. -/
def validateGlobList : List (List Char) → Except SecurityError Unit
  | [] => .ok ()
  | p :: ps =>
    match validateGlobOne p with
    | .error e => .error e
    | .ok _ => validateGlobList ps

/-- Modelled from the spec: validateGlobPatterns of the missing module —
the pattern-count cap first, then each pattern in order. -/
def validateGlobPatterns (ps : List (List Char)) : Except SecurityError Unit :=
  if MAX_PATTERNS < ps.length then .error ⟨.TooManyPatterns, "Too many exclude patterns"⟩
  else validateGlobList ps

/-- An over-long path that also carries a traversal sequence, used to
separate the length check from the dangerous-pattern check. -/
def overLongTraversal : List Char := '.' :: '.' :: List.replicate 4095 'a'

/-- A path inside the denylisted etc directory whose normalized depth
exceeds the maximum segment count. -/
def deepEtcPath : List Char := "/etc/a/a/a/a/a/a/a/a/a/a/a/a/a/a/a/a/a/a/a/a/a".toList

/-- Content whose single-pass scheme stripping splices the surrounding
text into a fresh dangerous scheme token. -/
def spliceContent : List Char := "javajavascript:script:alert(1)".toList

/-- Any over-long input is rejected with the TooLong failure before the
later checks run. -/
lemma valPath_tooLong_of_len {l : List Char} (h : MAX_PATH_LEN < l.length) :
    validatePathSecurity l = .error ⟨.TooLong, "Path too long"⟩ := by
  have hne : l ≠ [] := by
    intro he
    rw [he] at h
    exact absurd h (by decide)
  unfold validatePathSecurity
  rw [if_neg hne, if_pos h]

/-- C10: the validators are not vacuously rejecting — both benign relative
paths pass validatePathSecurity, and securePathResolve joins a benign
candidate under the project root, returning the absolute path ending in
/project/src/file.ts. -/
theorem validators_accept_benign :
    validatePathSecurity ("./src/test.ts".toList) = .ok () ∧
    validatePathSecurity ("src/components/Button.tsx".toList) = .ok () ∧
    securePathResolve ("/project".toList) ("./src/file.ts".toList) =
      .ok ("/project/src/file.ts".toList) := by
  refine ⟨by decide, by decide, by decide⟩

/-- C5: validateCommandArgument accepts the benign project name, rejects
the semicolon-bearing injection attempt with a message containing
"dangerous characters", and rejects a 300-character argument with a
message containing "too long". -/
theorem validateCommandArgument_examples :
    validateCommandArgument ("api-server".toList) ("project") = .ok () ∧
    (validateCommandArgument ("project; rm -rf /".toList) ("project") =
        .error ⟨.DangerousPattern, "project contains dangerous characters"⟩ ∧
      hasSubstr ("dangerous characters") ("project contains dangerous characters") = true) ∧
    (validateCommandArgument (List.replicate 300 'a') ("project") =
        .error ⟨.TooLong, "project is too long"⟩ ∧
      hasSubstr ("too long") ("project is too long") = true) := by
  refine ⟨by decide, ⟨by decide, by decide⟩, ⟨by decide, by decide⟩⟩

/-- C6: validateGlobPatterns accepts a benign pattern, rejects 60 patterns
with "Too many exclude patterns", rejects a forward-slash traversal
pattern with "Path traversal not allowed", and rejects a backslash
traversal pattern with "Invalid glob pattern" because the character
allowlist check runs before the forward-slash traversal check. -/
theorem validateGlobPatterns_examples :
    validateGlobPatterns [("**/*.test.ts".toList)] = .ok () ∧
    validateGlobPatterns (List.replicate 60 ("*.test.ts".toList)) =
      .error ⟨.TooManyPatterns, "Too many exclude patterns"⟩ ∧
    validateGlobPatterns [("../../etc/passwd".toList)] =
      .error ⟨.PathTraversalInPattern, "Path traversal not allowed"⟩ ∧
    validateGlobPatterns [("..\\windows\\system32".toList)] =
      .error ⟨.InvalidCharacters, "Invalid glob pattern"⟩ := by
  refine ⟨by decide, by decide, by decide, by decide⟩

/-- C7: every string longer than 4096 characters is rejected by
validatePathSecurity with the TooLong failure and the message "Path too
long", whatever else the string contains, because the length check runs
before the dangerous-sequence check. -/
theorem validatePathSecurity_too_long (l : List Char) (h : MAX_PATH_LEN < l.length) :
    validatePathSecurity l = .error ⟨.TooLong, "Path too long"⟩ :=
  valPath_tooLong_of_len h

/-- Witness for C7 at a concrete 4097-character input. -/
theorem validatePathSecurity_too_long_witness :
    MAX_PATH_LEN < (List.replicate 4097 'a').length ∧
    validatePathSecurity (List.replicate 4097 'a') = .error ⟨.TooLong, "Path too long"⟩ :=
  ⟨by rw [List.length_replicate]; decide,
   validatePathSecurity_too_long _ (by rw [List.length_replicate]; decide)⟩

/-- C9: a path that passes the earlier checks (non-empty, within the
length ceiling, free of dangerous sequences) but whose depth after
normalization exceeds 20 segments is rejected with the TooDeep failure. -/
theorem validatePathSecurity_too_deep (l : List Char)
    (hne : l ≠ []) (hlen : l.length ≤ MAX_PATH_LEN) (hd : hasDangerous l = false)
    (hdeep : MAX_PATH_DEPTH < pathDepth l) :
    validatePathSecurity l = .error ⟨.TooDeep, "path depth exceeds maximum levels"⟩ := by
  unfold validatePathSecurity
  rw [if_neg hne, if_neg (Nat.not_lt.mpr hlen)]
  simp [hd, hdeep]

/-- Witness for C9 at a 21-segment path. -/
theorem validatePathSecurity_too_deep_witness :
    MAX_PATH_DEPTH < pathDepth ("a/a/a/a/a/a/a/a/a/a/a/a/a/a/a/a/a/a/a/a/a".toList) ∧
    validatePathSecurity ("a/a/a/a/a/a/a/a/a/a/a/a/a/a/a/a/a/a/a/a/a".toList) =
      .error ⟨.TooDeep, "path depth exceeds maximum levels"⟩ :=
  ⟨by decide,
   validatePathSecurity_too_deep _ (by decide) (by decide) (by decide) (by decide)⟩

/-- C2 counterexample: a string that contains the parent-directory
sequence but is longer than the 4096-character ceiling is rejected by the
earlier length check with the TooLong failure and the message "Path too
long", not with the DangerousPattern failure the claim demands. -/
theorem validatePathSecurity_dotdot_overlong_counterexample :
    containsSeq ['.', '.'] overLongTraversal = true ∧
    validatePathSecurity overLongTraversal = .error ⟨.TooLong, "Path too long"⟩ ∧
    validatePathSecurity overLongTraversal ≠
      .error ⟨.DangerousPattern, "dangerous path pattern"⟩ := by
  have hlen : MAX_PATH_LEN < overLongTraversal.length := by
    have h2 : overLongTraversal.length = 4097 := by
      unfold overLongTraversal
      rw [List.length_cons, List.length_cons, List.length_replicate]
    rw [h2]
    decide
  have heq := valPath_tooLong_of_len hlen
  refine ⟨by decide, heq, ?_⟩
  rw [heq]
  decide

/-- C2 amended: every string of length at most 4096 that contains the
parent-directory sequence, a NUL byte, or any other control character is
rejected by validatePathSecurity with the DangerousPattern failure and the
message "dangerous path pattern", regardless of position. -/
theorem validatePathSecurity_dangerous_in_bounds (l : List Char)
    (hlen : l.length ≤ MAX_PATH_LEN) (hd : hasDangerous l = true) :
    validatePathSecurity l = .error ⟨.DangerousPattern, "dangerous path pattern"⟩ := by
  have hne : l ≠ [] := by
    intro he
    rw [he] at hd
    exact absurd hd (by decide)
  unfold validatePathSecurity
  rw [if_neg hne, if_neg (Nat.not_lt.mpr hlen)]
  simp [hd]

/-- Witness for the amended C2 at a short traversal-bearing string. -/
theorem validatePathSecurity_dangerous_in_bounds_witness :
    ("../x".toList).length ≤ MAX_PATH_LEN ∧
    hasDangerous ("../x".toList) = true ∧
    validatePathSecurity ("../x".toList) =
      .error ⟨.DangerousPattern, "dangerous path pattern"⟩ :=
  ⟨by decide, by decide,
   validatePathSecurity_dangerous_in_bounds _ (by decide) (by decide)⟩

/-- C3 counterexample: a path inside the denylisted etc directory with no
traversal sequence whose depth exceeds the maximum is rejected by the
earlier depth check with the TooDeep failure, not with the
SystemDirectoryForbidden failure the claim demands. -/
theorem validatePathSecurity_system_dir_counterexample :
    inSystemDir deepEtcPath = true ∧
    hasDangerous deepEtcPath = false ∧
    validatePathSecurity deepEtcPath = .error ⟨.TooDeep, "path depth exceeds maximum levels"⟩ ∧
    validatePathSecurity deepEtcPath ≠
      .error ⟨.SystemDirectoryForbidden, "system directory forbidden"⟩ := by
  refine ⟨by decide, by decide, by decide, by decide⟩

/-- C3 amended: every path that passes the earlier checks (non-empty,
within the length ceiling, no dangerous sequence, depth within the
maximum) and lies inside a denylisted system directory — matched
case-insensitively and independent of separator style by inSystemDir — is
rejected with the SystemDirectoryForbidden failure and the message
"system directory forbidden". -/
theorem validatePathSecurity_system_dir (l : List Char)
    (hne : l ≠ []) (hlen : l.length ≤ MAX_PATH_LEN) (hd : hasDangerous l = false)
    (hdeep : pathDepth l ≤ MAX_PATH_DEPTH) (hsys : inSystemDir l = true) :
    validatePathSecurity l =
      .error ⟨.SystemDirectoryForbidden, "system directory forbidden"⟩ := by
  unfold validatePathSecurity
  rw [if_neg hne, if_neg (Nat.not_lt.mpr hlen)]
  simp [hd, Nat.not_lt.mpr hdeep, hsys]

/-- Witness for the amended C3 at a POSIX-style and a Windows-style system
path. -/
theorem validatePathSecurity_system_dir_witness :
    inSystemDir ("/etc/passwd".toList) = true ∧
    validatePathSecurity ("/etc/passwd".toList) =
      .error ⟨.SystemDirectoryForbidden, "system directory forbidden"⟩ ∧
    validatePathSecurity ("C:\\Windows\\System32".toList) =
      .error ⟨.SystemDirectoryForbidden, "system directory forbidden"⟩ :=
  ⟨by decide,
   validatePathSecurity_system_dir _ (by decide) (by decide) (by decide) (by decide) (by decide),
   validatePathSecurity_system_dir _ (by decide) (by decide) (by decide) (by decide) (by decide)⟩

/-- Hex encoding yields two characters per byte. -/
lemma hexEncode_length (bs : List (Fin 256)) : (hexEncode bs).length = 2 * bs.length := by
  induction bs with
  | nil => rfl
  | cons b bs ih =>
    simp [hexEncode, ih]
    ring

/-- Both hex digits of any byte are lowercase hexadecimal characters. -/
lemma hexDigitChar_byte (b : Fin 256) :
    isLowerHexDigit (hexDigitChar (b.val / 16)) = true ∧
    isLowerHexDigit (hexDigitChar (b.val % 16)) = true := by
  revert b
  decide

/-- Every character of a hex encoding is a lowercase hexadecimal
character. -/
lemma hexEncode_chars (bs : List (Fin 256)) :
    ∀ c ∈ hexEncode bs, isLowerHexDigit c = true := by
  induction bs with
  | nil => intro c hc; exact absurd hc (by simp [hexEncode])
  | cons b bs ih =>
    intro c hc
    simp [hexEncode] at hc
    rcases hc with h | h | h
    · rw [h]; exact (hexDigitChar_byte b).1
    · rw [h]; exact (hexDigitChar_byte b).2
    · exact ih c h

/-- The generated temp file name never contains a separator, so it is a
single path component under the root. -/
lemma tempFileName_noSlash (pfx : List Char) (bytes : List (Fin 256)) :
    ∀ c ∈ tempFileName pfx bytes, c ≠ '/' := by
  intro c hc
  have hsuffix : (".tmp".toList : List Char) = ['.', 't', 'm', 'p'] := rfl
  unfold tempFileName at hc
  rw [hsuffix] at hc
  simp [List.mem_append, List.mem_filter] at hc
  rcases hc with ⟨_, hkeep⟩ | h | h | h
  · intro he
    rw [he] at hkeep
    exact absurd hkeep (by decide)
  · rw [h]; decide
  · have := hexEncode_chars bytes c h
    intro he
    rw [he] at this
    exact absurd this (by decide)
  · rcases h with h | h | h | h <;> rw [h] <;> decide

/-- C8: for every root accepted by the path validator, every prefix, and
every 32-byte random draw, createSecureTempPath succeeds and returns the
root, a separator, and a final slash-free component made of the
whitelist-filtered prefix, a hyphen, exactly 64 lowercase hexadecimal
characters, and the tmp suffix; it fails only when the root itself is
rejected. -/
theorem createSecureTempPath_shape (root pfx : List Char) (bytes : List (Fin 256))
    (hroot : validatePathSecurity root = .ok ()) (hlen : bytes.length = 32) :
    createSecureTempPath root pfx bytes = .ok (root ++ '/' :: tempFileName pfx bytes) ∧
    tempFileName pfx bytes =
      pfx.filter pfxKeep ++ '-' :: (hexEncode bytes ++ ".tmp".toList) ∧
    (hexEncode bytes).length = 64 ∧
    (∀ c ∈ hexEncode bytes, isLowerHexDigit c = true) ∧
    (∀ c ∈ tempFileName pfx bytes, c ≠ '/') := by
  refine ⟨?_, rfl, ?_, hexEncode_chars bytes, tempFileName_noSlash pfx bytes⟩
  · unfold createSecureTempPath
    rw [hroot]
  · rw [hexEncode_length, hlen]

/-- Witness for C8 at the project root, the vitest prefix, and an
all-zero 32-byte draw. -/
theorem createSecureTempPath_shape_witness :
    validatePathSecurity ("/project".toList) = .ok () ∧
    (List.replicate 32 (0 : Fin 256)).length = 32 ∧
    createSecureTempPath ("/project".toList) ("vitest".toList) (List.replicate 32 0) =
      .ok (("/project".toList) ++ '/' ::
        tempFileName ("vitest".toList) (List.replicate 32 0)) ∧
    (hexEncode (List.replicate 32 (0 : Fin 256))).length = 64 :=
  ⟨by decide, by decide,
   (createSecureTempPath_shape ("/project".toList) ("vitest".toList)
     (List.replicate 32 0) (by decide) (by decide)).1,
   (createSecureTempPath_shape ("/project".toList) ("vitest".toList)
     (List.replicate 32 0) (by decide) (by decide)).2.2.1⟩

/-- When no script-tag block exists, block removal is the identity
whatever the fuel. -/
lemma removeScriptsFuel_of_none {l : List Char} (h : splitFirstScript l = none) :
    ∀ f, removeScriptsFuel f l = l := by
  intro f
  cases f with
  | zero => rfl
  | succ f => simp [removeScriptsFuel, h]

/-- When a sequence does not occur, occurrence removal is the identity
whatever the fuel. -/
lemma removeSeqAllFuel_of_none {pat l : List Char}
    (h : findIdxOfSeq pat (l.map Char.toLower) = none) :
    ∀ f, removeSeqAllFuel pat f l = l := by
  intro f
  cases f with
  | zero => rfl
  | succ f => simp [removeSeqAllFuel, h]

/-- The output of the sanitizer pipeline keeps only characters the control
filter accepts. -/
lemma sanitizeString_keepChar (x : List Char) :
    ∀ c ∈ sanitizeString x, keepChar c = true := by
  intro c hc
  unfold sanitizeString at hc
  have hc2 : c ∈ (removeSchemes (removeScriptBlocks x)).filter keepChar :=
    List.take_subset _ _ hc
  exact List.of_mem_filter hc2

/-- The sanitizer output is already truncated, so truncating again changes
nothing. -/
lemma sanitizeString_take (x : List Char) :
    (sanitizeString x).take MAX_CONTENT_LEN = sanitizeString x := by
  unfold sanitizeString
  rw [List.take_take]
  simp

/-- C4 counterexample: sanitizeFileContent is not idempotent — stripping
the inner scheme token of the splice input reassembles the surrounding
text into a fresh scheme token, which only a second pass removes. -/
theorem sanitizeFileContent_not_idempotent :
    sanitizeFileContent (.str (sanitizeFileContent (.str spliceContent))) ≠
      sanitizeFileContent (.str spliceContent) := by
  decide

/-- C4 amended: sanitizeFileContent returns the empty string on null and
undefined, and it is idempotent on every string whose sanitized output
contains no script-tag block and no dangerous-scheme token; the
counterexample shows the restriction is necessary, since removal can
splice the surrounding text into a new dangerous construct. -/
theorem sanitizeFileContent_idempotent_clean (x : List Char)
    (h1 : splitFirstScript (sanitizeString x) = none)
    (h2 : ∀ pat ∈ dangerousSchemes,
      findIdxOfSeq pat ((sanitizeString x).map Char.toLower) = none) :
    sanitizeFileContent (.str (sanitizeFileContent (.str x))) = sanitizeFileContent (.str x) ∧
    sanitizeFileContent .jsNull = [] ∧
    sanitizeFileContent .jsUndefined = [] := by
  refine ⟨?_, rfl, rfl⟩
  show sanitizeString (sanitizeString x) = sanitizeString x
  have hblocks : removeScriptBlocks (sanitizeString x) = sanitizeString x :=
    removeScriptsFuel_of_none h1 _
  have hscheme : ∀ pat ∈ dangerousSchemes,
      removeSeqAll pat (sanitizeString x) = sanitizeString x := by
    intro pat hp
    exact removeSeqAllFuel_of_none (h2 pat hp) _
  have hschemes : removeSchemes (sanitizeString x) = sanitizeString x := by
    unfold removeSchemes dangerousSchemes
    rw [List.foldl_cons, List.foldl_cons, List.foldl_cons, List.foldl_nil]
    rw [hscheme _ (by unfold dangerousSchemes; exact List.mem_cons_self _ _)]
    rw [hscheme _ (by unfold dangerousSchemes; simp)]
    rw [hscheme _ (by unfold dangerousSchemes; simp)]
  have hfilter : (sanitizeString x).filter keepChar = sanitizeString x :=
    List.filter_eq_self.mpr (sanitizeString_keepChar x)
  calc sanitizeString (sanitizeString x)
      = ((removeSchemes (removeScriptBlocks (sanitizeString x))).filter keepChar).take
          MAX_CONTENT_LEN := rfl
    _ = ((sanitizeString x).filter keepChar).take MAX_CONTENT_LEN := by
          rw [hblocks, hschemes]
    _ = (sanitizeString x).take MAX_CONTENT_LEN := by rw [hfilter]
    _ = sanitizeString x := sanitizeString_take x

/-- Witness for the amended C4 at a plain benign string. -/
theorem sanitizeFileContent_idempotent_clean_witness :
    splitFirstScript (sanitizeString ("hello".toList)) = none ∧
    sanitizeFileContent (.str (sanitizeFileContent (.str ("hello".toList)))) =
      sanitizeFileContent (.str ("hello".toList)) ∧
    sanitizeFileContent .jsNull = [] ∧
    sanitizeFileContent .jsUndefined = [] :=
  ⟨by decide,
   (sanitizeFileContent_idempotent_clean ("hello".toList) (by decide) (by decide)).1,
   rfl, rfl⟩

/-- No two consecutive separators occur in the list. -/
def noDS : List Char → Bool
  | [] => true
  | [_] => true
  | a :: b :: rest => (!(a == '/' && b == '/')) && noDS (b :: rest)

/-- Dropping the head preserves the absence of consecutive separators. -/
lemma noDS_tail {a : Char} {l : List Char} (h : noDS (a :: l) = true) : noDS l = true := by
  cases l with
  | nil => rfl
  | cons b m =>
    have h2 : noDS (a :: b :: m) = ((!(a == '/' && b == '/')) && noDS (b :: m)) := rfl
    rw [h2, Bool.and_eq_true] at h
    exact h.2

/-- A list without consecutive separators never decomposes around a
double separator. -/
lemma noDS_no_double (r t l : List Char) (h : noDS l = true) :
    l ≠ r ++ '/' :: '/' :: t := by
  induction r generalizing l with
  | nil =>
    intro he
    rw [he] at h
    simp only [List.nil_append] at h
    have h2 : noDS ('/' :: '/' :: t) =
        ((!(('/' : Char) == '/' && ('/' : Char) == '/')) && noDS ('/' :: t)) := rfl
    rw [h2] at h
    simp at h
  | cons a r ih =>
    intro he
    rw [he] at h
    simp only [List.cons_append] at h
    exact ih (r ++ '/' :: '/' :: t) (noDS_tail h) rfl

/-- Prepending a non-separator preserves the absence of consecutive
separators. -/
lemma noDS_cons_ne {a : Char} {l : List Char} (ha : a ≠ '/') (h : noDS l = true) :
    noDS (a :: l) = true := by
  cases l with
  | nil => rfl
  | cons b m =>
    have h2 : noDS (a :: b :: m) = ((!(a == '/' && b == '/')) && noDS (b :: m)) := rfl
    rw [h2, Bool.and_eq_true]
    refine ⟨?_, h⟩
    simp [ha]

/-- Prepending a separator is safe when the list does not start with
one. -/
lemma noDS_slash_cons {l : List Char} (h : noDS l = true) (hh : l.head? ≠ some '/') :
    noDS ('/' :: l) = true := by
  cases l with
  | nil => rfl
  | cons b m =>
    have hb : b ≠ '/' := by
      intro he
      exact hh (by rw [he]; rfl)
    have h2 : noDS ('/' :: b :: m) = ((!(('/' : Char) == '/' && b == '/')) && noDS (b :: m)) := rfl
    rw [h2, Bool.and_eq_true]
    refine ⟨?_, h⟩
    simp [hb]

/-- A separator-free list has no consecutive separators. -/
lemma noDS_of_noSlash {s : List Char} (hs : ∀ c ∈ s, c ≠ '/') : noDS s = true := by
  induction s with
  | nil => rfl
  | cons a m ih =>
    exact noDS_cons_ne (hs a (List.mem_cons_self a m))
      (ih (fun c hc => hs c (List.mem_cons_of_mem a hc)))

/-- Appending a separator and a clean continuation to a separator-free
list never creates consecutive separators. -/
lemma noDS_append {s j : List Char} (hs : ∀ c ∈ s, c ≠ '/')
    (hj : noDS j = true) (hh : j.head? ≠ some '/') :
    noDS (s ++ '/' :: j) = true := by
  induction s with
  | nil => exact noDS_slash_cons hj hh
  | cons a m ih =>
    exact noDS_cons_ne (hs a (List.mem_cons_self a m))
      (ih (fun c hc => hs c (List.mem_cons_of_mem a hc)))

/-- Joining non-empty separator-free segments yields a list without
consecutive separators that does not start with one. -/
lemma joinSegs_good (segs : List (List Char))
    (h : ∀ s ∈ segs, s ≠ [] ∧ ∀ c ∈ s, c ≠ '/') :
    noDS (joinSegs segs) = true ∧ (joinSegs segs).head? ≠ some '/' := by
  induction segs with
  | nil => exact ⟨rfl, by simp [joinSegs]⟩
  | cons s rest ih =>
    obtain ⟨hne, hs⟩ := h s (List.mem_cons_self s rest)
    cases rest with
    | nil =>
      refine ⟨noDS_of_noSlash hs, ?_⟩
      cases s with
      | nil => exact absurd rfl hne
      | cons a m =>
        have ha := hs a (List.mem_cons_self a m)
        simp [joinSegs, ha]
    | cons s2 rest2 =>
      have ih' := ih (fun x hx => h x (List.mem_cons_of_mem s hx))
      have hjoin : joinSegs (s :: s2 :: rest2) = s ++ '/' :: joinSegs (s2 :: rest2) := rfl
      refine ⟨?_, ?_⟩
      · rw [hjoin]
        exact noDS_append hs ih'.1 ih'.2
      · rw [hjoin]
        cases s with
        | nil => exact absurd rfl hne
        | cons a m =>
          have ha := hs a (List.mem_cons_self a m)
          simp [ha]

/-- Every chunk produced by splitting on the separator is
separator-free. -/
lemma splitSl_noSlash : ∀ (l : List Char), ∀ s ∈ splitSl l, ∀ c ∈ s, c ≠ '/' := by
  intro l
  induction l with
  | nil =>
    intro s hs
    simp [splitSl] at hs
    rw [hs]
    intro c hc
    exact absurd hc (List.not_mem_nil c)
  | cons a m ih =>
    intro s hs
    by_cases ha : a = '/'
    · rw [show splitSl (a :: m) = [] :: splitSl m by simp [splitSl, ha]] at hs
      rcases List.mem_cons.mp hs with h | h
      · rw [h]
        intro c hc
        exact absurd hc (List.not_mem_nil c)
      · exact ih s h
    · cases hsp : splitSl m with
      | nil =>
        rw [show splitSl (a :: m) = [[a]] by simp [splitSl, ha, hsp]] at hs
        rcases List.mem_cons.mp hs with h | h
        · rw [h]
          intro c hc
          rcases List.mem_cons.mp hc with rfl | hcc
          · exact ha
          · exact absurd hcc (List.not_mem_nil c)
        · exact absurd h (List.not_mem_nil s)
      | cons s1 ss =>
        rw [show splitSl (a :: m) = (a :: s1) :: ss by simp [splitSl, ha, hsp]] at hs
        rcases List.mem_cons.mp hs with h | h
        · rw [h]
          intro c hc
          rcases List.mem_cons.mp hc with rfl | hcc
          · exact ha
          · exact ih s1 (by rw [hsp]; exact List.mem_cons_self s1 ss) c hcc
        · exact ih s (by rw [hsp]; exact List.mem_cons_of_mem s1 h)

/-- Unfolding equation for the normalization worker on a cons cell. -/
lemma resolveSegs_cons (acc : List (List Char)) (x : List Char) (xs : List (List Char)) :
    resolveSegs acc (x :: xs) =
      if x = [] ∨ x = ['.'] then resolveSegs acc xs
      else if x = ['.', '.'] then resolveSegs acc.tail xs
      else resolveSegs (x :: acc) xs := rfl

/-- Every segment surviving normalization is non-empty and
separator-free. -/
lemma resolveSegs_mem (xs : List (List Char)) :
    ∀ (acc : List (List Char)),
    (∀ s ∈ acc, s ≠ [] ∧ ∀ c ∈ s, c ≠ '/') →
    (∀ s ∈ xs, ∀ c ∈ s, c ≠ '/') →
    ∀ s ∈ resolveSegs acc xs, s ≠ [] ∧ ∀ c ∈ s, c ≠ '/' := by
  induction xs with
  | nil =>
    intro acc hacc _ s hs
    rw [show resolveSegs acc [] = acc.reverse from rfl] at hs
    exact hacc s (List.mem_reverse.mp hs)
  | cons x xs ih =>
    intro acc hacc hxs s hs
    by_cases h1 : x = [] ∨ x = ['.']
    · rw [resolveSegs_cons, if_pos h1] at hs
      exact ih acc hacc (fun t ht => hxs t (List.mem_cons_of_mem x ht)) s hs
    · by_cases h2 : x = ['.', '.']
      · rw [resolveSegs_cons, if_neg h1, if_pos h2] at hs
        have htail : ∀ t ∈ acc.tail, t ≠ [] ∧ ∀ c ∈ t, c ≠ '/' := by
          intro t ht
          cases acc with
          | nil => exact absurd ht (List.not_mem_nil t)
          | cons a as => exact hacc t (List.mem_cons_of_mem a ht)
        exact ih acc.tail htail (fun t ht => hxs t (List.mem_cons_of_mem x ht)) s hs
      · rw [resolveSegs_cons, if_neg h1, if_neg h2] at hs
        have hpush : ∀ t ∈ (x :: acc), t ≠ [] ∧ ∀ c ∈ t, c ≠ '/' := by
          intro t ht
          rcases List.mem_cons.mp ht with rfl | htt
          · exact ⟨fun he => h1 (Or.inl he), hxs t (List.mem_cons_self t xs)⟩
          · exact hacc t htt
        exact ih (x :: acc) hpush (fun t ht => hxs t (List.mem_cons_of_mem x ht)) s hs

/-- Normalized paths never contain consecutive separators. -/
lemma normalizePath_noDS (l : List Char) : noDS (normalizePath l) = true := by
  have hsegs : ∀ s ∈ resolveSegs [] (splitSl l), s ≠ [] ∧ ∀ c ∈ s, c ≠ '/' :=
    resolveSegs_mem (splitSl l) []
      (fun s hs => absurd hs (List.not_mem_nil s)) (splitSl_noSlash l)
  have hj := joinSegs_good _ hsegs
  unfold normalizePath
  by_cases habs : l.head? = some '/'
  · rw [if_pos habs]
    exact noDS_slash_cons hj.1 hj.2
  · rw [if_neg habs]
    exact hj.1

/-- A successful boolean membership test decomposes the longer list. -/
lemma isPre_exists : ∀ (x y : List Char), x.isPrefixOf y = true → ∃ t, y = x ++ t := by
  intro x
  induction x with
  | nil =>
    intro y _
    exact ⟨y, rfl⟩
  | cons a m ih =>
    intro y h
    cases y with
    | nil => exact absurd h (by simp [List.isPrefixOf])
    | cons b n =>
      rw [show (a :: m).isPrefixOf (b :: n) = ((a == b) && m.isPrefixOf n) from rfl,
        Bool.and_eq_true] at h
      obtain ⟨t, ht⟩ := ih n h.2
      refine ⟨t, ?_⟩
      have hab : a = b := by
        have := h.1
        simpa using this
      rw [ht, ← hab]
      rfl

/-- C1: whenever securePathResolve succeeds, the returned path equals the
root, or starts with the root followed by exactly one separator — never a
path outside the root. -/
theorem securePathResolve_within_root (root cand p : List Char)
    (h : securePathResolve root cand = .ok p) :
    p = root ∨
      ((root ++ ['/']).isPrefixOf p = true ∧
        (root ++ ['/', '/']).isPrefixOf p = false) := by
  unfold securePathResolve at h
  cases hv : validatePathSecurity cand with
  | error e =>
    rw [hv] at h
    exact absurd h (by simp)
  | ok u =>
    rw [hv] at h
    unfold boundaryCheckOf at h
    by_cases h1 : normalizePath (joinPath root cand) = root
    · rw [if_pos h1] at h
      have hp : normalizePath (joinPath root cand) = p := by
        simpa using h
      exact Or.inl (hp ▸ h1)
    · rw [if_neg h1] at h
      by_cases h2 : (root ++ ['/']).isPrefixOf (normalizePath (joinPath root cand)) = true
      · rw [if_pos h2] at h
        have hp : normalizePath (joinPath root cand) = p := by
          simpa using h
        refine Or.inr ⟨hp ▸ h2, ?_⟩
        cases h3 : (root ++ ['/', '/']).isPrefixOf p with
        | false => rfl
        | true =>
          obtain ⟨t, ht⟩ := isPre_exists _ _ h3
          have hds : p = root ++ '/' :: '/' :: t := by
            rw [ht]
            simp
          have hnoDS : noDS p = true := hp ▸ normalizePath_noDS (joinPath root cand)
          exact absurd hds (noDS_no_double root t p hnoDS)
      · rw [if_neg ?hc] at h
        · exact absurd h (by simp)
        · case hc =>
            intro hcc
            exact h2 hcc

/-- Witness for C1 at the project root and a benign relative candidate. -/
theorem securePathResolve_within_root_witness :
    securePathResolve ("/project".toList) ("./src/file.ts".toList) =
      .ok ("/project/src/file.ts".toList) ∧
    (("/project/src/file.ts".toList) = ("/project".toList) ∨
      ((("/project".toList) ++ ['/']).isPrefixOf ("/project/src/file.ts".toList) = true ∧
        (("/project".toList) ++ ['/', '/']).isPrefixOf ("/project/src/file.ts".toList) = false)) :=
  ⟨by decide,
   securePathResolve_within_root ("/project".toList) ("./src/file.ts".toList)
     ("/project/src/file.ts".toList) (by decide)⟩

end PathSec
